import Mathlib

set_option maxHeartbeats 1000000

/-!
Shallow embedding of `pkg/analyzer/legacy.go` of the `sqlclosecheck` linter
and proofs about its core analysis: target-type matching, the
per-instruction action classifier `getAction`, the closure-reachability
walk `isClosed`, the deferred-usage walk `checkDeferred`, and the driving
pass `Run`.

Instructions of the Go SSA graph are embedded as trees: everything the
analysis ever follows from an instruction (the static callee's body
blocks, a deferred function literal's body, a closure's body, a value's
referrer list) is embedded as a subterm.  A second, environment-based
model with explicit fuel (`gIsClosed` and friends) represents function
bodies by index so that cyclic (recursive) call graphs are expressible;
it is used to study termination of the interprocedural walk.
-/

namespace SqlCloseCheck

/-- A Go type, compared by structural identity (models `go/types.Type`
with `types.Identical` as propositional equality). -/
inductive GoType : Type where
  | named (pkg : String) (name : String)
  | ptr (elem : GoType)
  | basic (name : String)
deriving DecidableEq, Repr

/-- An entry of the `targetTypes []any` list of legacy.go: a
`*types.Pointer`, a `*types.Named`, or a value of any other dynamic type
(skipped by every type switch of legacy.go). -/
inductive TTEntry : Type where
  | pointer (t : GoType)
  | named (t : GoType)
  | other
deriving DecidableEq, Repr

/-- The `action` enumeration of legacy.go (lines 20-39). -/
inductive Action : Type where
  | unhandled
  | handled
  | returned
  | passed
  | closed
  | unvaluedCall
  | unvaluedDefer
  | noOp
deriving DecidableEq, Repr

/-- Constant `rowsName` of legacy.go. -/
def rowsName : String := "Rows"

/-- Constant `stmtName` of legacy.go. -/
def stmtName : String := "Stmt"

/-- Constant `namedStmtName` of legacy.go. -/
def namedStmtName : String := "NamedStmt"

/-- Constant `closeMethod` of legacy.go. -/
def closeMethod : String := "Close"

/-- The allow-list `sqlPackages` of legacy.go. -/
def sqlPackages : List String :=
  ["database/sql", "github.com/jmoiron/sqlx", "github.com/jackc/pgx/v5",
    "github.com/jackc/pgx/v5/pgxpool"]

mutual
/-- The `Call.Value` operand of an `ssa.CallCommon`: either a statically
known `*ssa.Function` (its name, its signature's receiver type if any,
and its body blocks, embedded), or any other `ssa.Value` (its name and
type).  `ssa.CallCommon.StaticCallee()` is non-nil exactly on the `fn`
shape. -/
inductive CallValue : Type where
  | fn (name : String) (recv : Option GoType) (blocks : List (List Instruction))
  | nonfn (name : String) (ty : GoType)

/-- A referrer of a store's address operand, as inspected by legacy.go:
an `*ssa.MakeClosure` (whose `Fn` may be a statically known
`*ssa.Function`, body embedded) or any other instruction. -/
inductive AddrRef : Type where
  | makeClosure (fn : Option (List (List Instruction)))
  | otherRef

/-- An `ssa.Instruction`, restricted to the shapes legacy.go dispatches
on; every other instruction kind is `other`.  Referrer lists of values
produced by the instruction, where the analysis follows them, are
embedded. -/
inductive Instruction : Type where
  | deferI (value : Option CallValue) (method : Option String)
  | call (pos : Nat) (value : Option CallValue) (method : Option String)
  | phi (referrers : List Instruction)
  | makeInterface (referrers : List Instruction)
  | store (addrIsFieldAddr : Bool) (addrReferrers : List AddrRef)
  | unOp (ty : GoType) (referrers : List Instruction)
  | fieldAddr (referrers : List Instruction)
  | ret (results : List GoType)
  | other
end

/-- The `Name()` accessor of a `Call.Value`. -/
def CallValue.name : CallValue → String
  | .fn n _ _ => n
  | .nonfn n _ => n

/-- The test `instr.Call.Value != nil && instr.Call.Value.Name() == m`. -/
def valueNamed (value : Option CallValue) (m : String) : Bool :=
  match value with
  | some v => v.name == m
  | none => false

/-- The test `instr.Call.Method != nil && instr.Call.Method.Name() == m`. -/
def methodNamed (method : Option String) (m : String) : Bool :=
  match method with
  | some n => n == m
  | none => false

/-- One iteration of the `targetType`-matching loops of legacy.go
(`UnOp` and `Return` cases): a `*types.Pointer` or `*types.Named` entry
is compared with `types.Identical`, any other entry is skipped. -/
def ttMatches (x : GoType) : TTEntry → Bool
  | .pointer t => x == t
  | .named t => x == t
  | .other => false

/-- Modelled from the spec: `isTargetType` is called by legacy.go but
defined in a source file outside the analyzed set.  Per the spec, type
matching "uses exact structural identity against each resolved
TargetType; only 'named' and 'pointer-to-named' TargetType shapes are
matched". -/
def isTargetType (t : GoType) (targetTypes : List TTEntry) : Bool :=
  targetTypes.any (ttMatches t)

mutual
/-- `isClosed` of legacy.go (lines 113-151): walk the referrers in
order; `Closed` and `Handled` short-circuit to true, every other action
falls through to the next referrer; an exhausted list yields false. -/
def isClosed : List Instruction → List TTEntry → Bool
  | [], _ => false
  | ref :: rest, targetTypes =>
    match getAction ref targetTypes with
    | .closed => true
    | .handled => true
    | _ => isClosed rest targetTypes
termination_by refs _ => (sizeOf refs, 0)
decreasing_by all_goals (simp_wf; omega)

/-- `getAction` of legacy.go (lines 154-317). -/
def getAction (instr : Instruction) (targetTypes : List TTEntry) : Action :=
  match instr with
  | .deferI value method =>
    if valueNamed value closeMethod then .closed
    else
      match method with
      | some m => if m == closeMethod then .closed else .unvaluedDefer
      | none =>
        match value with
        | some (.fn _ _ blocks) =>
          if anyBlockClosed blocks targetTypes then .closed else .unvaluedDefer
        | _ => .unvaluedDefer
  | .call _ value _ =>
    match value with
    | none => .unvaluedCall
    | some (.fn name recv blocks) =>
      let isTarget := match recv with
        | some recvTy => isTargetType recvTy targetTypes
        | none => false
      if isTarget && name == closeMethod then .closed
      else if !isTarget then
        (if anyBlockClosed blocks targetTypes then .closed else .unhandled)
      else .unhandled
    | some (.nonfn name ty) =>
      let isTarget := isTargetType ty targetTypes
      if isTarget && name == closeMethod then .closed
      else .unhandled
  | .phi _ => .passed
  | .makeInterface _ => .passed
  | .store addrIsFieldAddr addrReferrers =>
    if addrIsFieldAddr then .returned
    else if addrReferrers.length = 0 then .noOp
    else if addrRefsHandled addrReferrers targetTypes then .handled
    else .unhandled
  | .unOp ty referrers =>
    if unOpLoop ty referrers targetTypes targetTypes then .handled else .unhandled
  | .fieldAddr referrers =>
    if isClosed referrers targetTypes then .handled else .unhandled
  | .ret results =>
    if results.any (fun r => targetTypes.any (ttMatches r)) then .returned
    else .unhandled
  | .other => .unhandled
termination_by (sizeOf instr, 0)
decreasing_by all_goals (simp_wf; omega)

/-- The `for _, b := range blocks { if isClosed(&b.Instrs, targetTypes)
{ return ... } }` loops of legacy.go (Defer, Call and Store cases). -/
def anyBlockClosed : List (List Instruction) → List TTEntry → Bool
  | [], _ => false
  | b :: bs, targetTypes =>
    if isClosed b targetTypes then true else anyBlockClosed bs targetTypes
termination_by blocks _ => (sizeOf blocks, 0)
decreasing_by all_goals (simp_wf; omega)

/-- The loop over `*instr.Addr.Referrers()` of the `Store` case of
`getAction`: a `MakeClosure` whose `Fn` is a known function makes the
store `Handled` when some block of the closure's body closes the
target. -/
def addrRefsHandled : List AddrRef → List TTEntry → Bool
  | [], _ => false
  | .makeClosure (some blocks) :: rest, targetTypes =>
    if anyBlockClosed blocks targetTypes then true
    else addrRefsHandled rest targetTypes
  | _ :: rest, targetTypes => addrRefsHandled rest targetTypes
termination_by refs _ => (sizeOf refs, 0)
decreasing_by all_goals (simp_wf; omega)

/-- The loop over `targetTypes` of the `UnOp` case of `getAction`: on a
`*types.Pointer` or `*types.Named` entry identical to the instruction's
type, recurse into the instruction's referrers; the first closing hit
returns `Handled`. -/
def unOpLoop (ty : GoType) (referrers : List Instruction) :
    List TTEntry → List TTEntry → Bool
  | [], _ => false
  | e :: rest, targetTypes =>
    match e with
    | .pointer t =>
      if ty = t then
        (if isClosed referrers targetTypes then true
         else unOpLoop ty referrers rest targetTypes)
      else unOpLoop ty referrers rest targetTypes
    | .named t =>
      if ty = t then
        (if isClosed referrers targetTypes then true
         else unOpLoop ty referrers rest targetTypes)
      else unOpLoop ty referrers rest targetTypes
    | .other => unOpLoop ty referrers rest targetTypes
termination_by remaining _ => (sizeOf referrers, sizeOf remaining)
decreasing_by all_goals (simp_wf; omega)
end

/-- A diagnostic reported through `pass.Reportf`. -/
structure Diag where
  pos : Nat
  msg : String
deriving DecidableEq, Repr

/-- The message of the report at line 98 of legacy.go. -/
def notClosedMsg : String := "Rows/Stmt/NamedStmt was not closed"

/-- The message of the report at line 333 of legacy.go. -/
def useDeferMsg : String := "Close should use defer"

mutual
/-- `checkDeferred` of legacy.go (lines 319-374), with `pass.Reportf`
modelled as returning the list of emitted diagnostics in emission
order.  A `return` in the Go loop corresponds to not recursing on the
rest of the list. -/
def checkDeferred : List Instruction → List TTEntry → Bool → List Diag
  | [], _, _ => []
  | instr :: rest, targetTypes, inDefer =>
    match instr with
    | .deferI value method =>
      if valueNamed value closeMethod then []
      else if methodNamed method closeMethod then []
      else checkDeferred rest targetTypes inDefer
    | .call pos value _ =>
      if valueNamed value closeMethod then
        (if !inDefer then [⟨pos, useDeferMsg⟩] else [])
      else checkDeferred rest targetTypes inDefer
    | .store _ addrReferrers =>
      if addrReferrers.length = 0 then []
      else cdAddrRefs addrReferrers targetTypes ++
        checkDeferred rest targetTypes inDefer
    | .unOp ty referrers =>
      cdUnOpLoop ty referrers targetTypes targetTypes inDefer ++
        checkDeferred rest targetTypes inDefer
    | .fieldAddr referrers =>
      checkDeferred referrers targetTypes inDefer ++
        checkDeferred rest targetTypes inDefer
    | _ => checkDeferred rest targetTypes inDefer
termination_by instrs _ _ => (sizeOf instrs, 0)
decreasing_by all_goals (simp_wf; omega)

/-- The loop over `*instr.Addr.Referrers()` of the `Store` case of
`checkDeferred`: each `MakeClosure` whose `Fn` is a known function has
every block of its body walked with `inDefer` set to true. -/
def cdAddrRefs : List AddrRef → List TTEntry → List Diag
  | [], _ => []
  | .makeClosure (some blocks) :: rest, targetTypes =>
    cdBlocks blocks targetTypes ++ cdAddrRefs rest targetTypes
  | _ :: rest, targetTypes => cdAddrRefs rest targetTypes
termination_by refs _ => (sizeOf refs, 0)
decreasing_by all_goals (simp_wf; omega)

/-- The `for _, b := range f.Blocks { checkDeferred(pass, &b.Instrs,
targetTypes, true) }` loop of `checkDeferred`. -/
def cdBlocks : List (List Instruction) → List TTEntry → List Diag
  | [], _ => []
  | b :: bs, targetTypes =>
    checkDeferred b targetTypes true ++ cdBlocks bs targetTypes
termination_by blocks _ => (sizeOf blocks, 0)
decreasing_by all_goals (simp_wf; omega)

/-- The loop over `targetTypes` of the `UnOp` case of `checkDeferred`:
on a `*types.Pointer` or `*types.Named` entry identical to the
instruction's type, walk the instruction's referrers with the same
`inDefer` flag. -/
def cdUnOpLoop (ty : GoType) (referrers : List Instruction) :
    List TTEntry → List TTEntry → Bool → List Diag
  | [], _, _ => []
  | e :: rest, targetTypes, inDefer =>
    match e with
    | .pointer t =>
      (if ty = t then checkDeferred referrers targetTypes inDefer else []) ++
        cdUnOpLoop ty referrers rest targetTypes inDefer
    | .named t =>
      (if ty = t then checkDeferred referrers targetTypes inDefer else []) ++
        cdUnOpLoop ty referrers rest targetTypes inDefer
    | .other => cdUnOpLoop ty referrers rest targetTypes inDefer
termination_by remaining _ _ => (sizeOf referrers, sizeOf remaining)
decreasing_by all_goals (simp_wf; omega)
end

/-- An instruction as seen by the top-level scan of `Run`: its source
position, whether it is a call, the type of the value it produces (if
any), and the referrer list of that value. -/
structure ClosableSite where
  pos : Nat
  isCall : Bool
  resultTy : Option GoType
  referrers : List Instruction

/-- The input of `Run`: the program's type universe (for target-type
resolution) and its source functions, each a list of basic blocks of
scannable instructions. -/
structure Program where
  typeUniverse : List GoType
  funcs : List (List (List ClosableSite))

/-- Modelled from the spec: `getTargetTypes` is called by `Run` but
defined in a source file outside the analyzed set.  Per the spec it
returns every type of the universe "whose declared name matches one of
the tracked resource-type names (exact, case-sensitive) within an
allow-listed package, in both bare and pointer-to-named form". -/
def getTargetTypes (prog : Program) (pkgs : List String) : List TTEntry :=
  prog.typeUniverse.flatMap fun t =>
    match t with
    | .named pkg nm =>
      if pkgs.contains pkg && [rowsName, stmtName, namedStmtName].contains nm
      then [TTEntry.named t, TTEntry.pointer (.ptr t)]
      else []
    | _ => []

/-- Modelled from the spec: `getClosableValues` is called by `Run` but
defined in a source file outside the analyzed set.  Per the spec: "if
the instruction is a call whose produced value's type matches a
TargetType (by identity), record a ClosableValue". -/
def getClosableValues (site : ClosableSite) (targetTypes : List TTEntry) :
    List ClosableSite :=
  if site.isCall then
    match site.resultTy with
    | some t => if isTargetType t targetTypes then [site] else []
    | none => []
  else []

/-- The body of the `for _, targetValue := range targetValues` loop of
`Run` (lines 91-102): report "not closed" at the producing instruction
when `isClosed` fails on the value's referrers, then run
`checkDeferred` over the same referrers. -/
def processValue (site : ClosableSite) (targetTypes : List TTEntry) :
    List Diag :=
  (if !(isClosed site.referrers targetTypes) then [⟨site.pos, notClosedMsg⟩]
   else []) ++ checkDeferred site.referrers targetTypes false

/-- `Run` of legacy.go (lines 66-108): resolve the target types, short
circuit when none are found, otherwise scan every function, block and
instruction for closable values and process each. -/
def run (prog : Program) : List Diag :=
  let targetTypes := getTargetTypes prog sqlPackages
  if targetTypes.length = 0 then []
  else
    prog.funcs.flatMap fun f =>
      f.flatMap fun b =>
        b.flatMap fun site =>
          (getClosableValues site targetTypes).flatMap fun tv =>
            processValue tv targetTypes

/-! Sample values used by concrete parts of the theorems below. -/

/-- The `database/sql.Rows` named type. -/
def rowsTy : GoType := .named "database/sql" "Rows"

/-- A resolved target-type list for `database/sql.Rows`, in bare and
pointer-to-named form. -/
def tts0 : List TTEntry := [.named rowsTy, .pointer (.ptr rowsTy)]

/-- A bare call `rows.Close()`: its static callee is the method `Close`
with receiver type `*Rows` and an (elided) body. -/
def bareClose (pos : Nat) : Instruction :=
  .call pos (some (.fn "Close" (some (.ptr rowsTy)) [])) none

/-- A deferred call `defer rows.Close()`: its `Call.Value` is the
method `Close` with receiver type `*Rows`. -/
def deferClose : Instruction :=
  .deferI (some (.fn "Close" (some (.ptr rowsTy)) [])) none

/-- The `isTarget` computation of the `Call` case of `getAction` for a
statically resolved callee: true when the callee signature's receiver
exists and has a target type (lines 196-199 of legacy.go). -/
def recvIsTarget (recv : Option GoType) (targetTypes : List TTEntry) :
    Bool :=
  match recv with
  | some t => isTargetType t targetTypes
  | none => false

/-- The deferred-function walk of the `Defer` case of `getAction`
(lines 173-182 of legacy.go): when the deferred `Call.Value` is a
statically known function, whether some block of its body closes the
target. -/
def deferBodyClosed (value : Option CallValue)
    (targetTypes : List TTEntry) : Bool :=
  match value with
  | some (.fn _ _ blocks) => anyBlockClosed blocks targetTypes
  | _ => false

/-! The environment-based model of the same mutual recursion, for the
termination analysis.  Function bodies are referenced by index into an
environment instead of being embedded, so recursive and mutually
recursive callee bodies are expressible; the walk carries explicit fuel
and returns `none` exactly when the call-stack recursion of the Go
original would exceed that depth. -/

mutual
/-- `Call.Value` in the environment-based model: a statically known
function is identified by its index. -/
inductive GCallValue : Type where
  | fn (name : String) (recv : Option GoType) (fid : Nat)
  | nonfn (name : String) (ty : GoType)

/-- A store-address referrer in the environment-based model. -/
inductive GAddrRef : Type where
  | makeClosure (fn : Option Nat)
  | otherRef

/-- An instruction in the environment-based model. -/
inductive GInstr : Type where
  | deferI (value : Option GCallValue) (method : Option String)
  | call (value : Option GCallValue) (method : Option String)
  | phi (referrers : List GInstr)
  | makeInterface (referrers : List GInstr)
  | store (addrIsFieldAddr : Bool) (addrReferrers : List GAddrRef)
  | unOp (ty : GoType) (referrers : List GInstr)
  | fieldAddr (referrers : List GInstr)
  | ret (results : List GoType)
  | other
end

/-- A program environment: the body (list of blocks) of every function
index. -/
def GEnv : Type := Nat → List (List GInstr)

/-- The `Name()` accessor of a `Call.Value` in the environment-based
model. -/
def GCallValue.name : GCallValue → String
  | .fn n _ _ => n
  | .nonfn n _ => n

/-- The test `instr.Call.Value != nil && instr.Call.Value.Name() == m`
in the environment-based model. -/
def gValueNamed (value : Option GCallValue) (m : String) : Bool :=
  match value with
  | some v => v.name == m
  | none => false

mutual
/-- Fuel-indexed `isClosed` over an environment; every recursive step
of the Go original consumes one unit of fuel, and `none` means the
recursion is deeper than the given fuel. -/
def gIsClosed (env : GEnv) : Nat → List GInstr → List TTEntry → Option Bool
  | 0, _, _ => none
  | _ + 1, [], _ => some false
  | fuel + 1, ref :: rest, targetTypes =>
    match gGetAction env fuel ref targetTypes with
    | none => none
    | some .closed => some true
    | some .handled => some true
    | some _ => gIsClosed env fuel rest targetTypes

/-- Fuel-indexed `getAction` over an environment. -/
def gGetAction (env : GEnv) : Nat → GInstr → List TTEntry → Option Action
  | 0, _, _ => none
  | fuel + 1, instr, targetTypes =>
    match instr with
    | .deferI value method =>
      if gValueNamed value closeMethod then some .closed
      else
        match method with
        | some m =>
          if m == closeMethod then some .closed else some .unvaluedDefer
        | none =>
          match value with
          | some (.fn _ _ fid) =>
            match gAnyBlockClosed env fuel (env fid) targetTypes with
            | none => none
            | some true => some .closed
            | some false => some .unvaluedDefer
          | _ => some .unvaluedDefer
    | .call value _ =>
      match value with
      | none => some .unvaluedCall
      | some (.fn name recv fid) =>
        let isTarget := match recv with
          | some recvTy => isTargetType recvTy targetTypes
          | none => false
        if isTarget && name == closeMethod then some .closed
        else if !isTarget then
          match gAnyBlockClosed env fuel (env fid) targetTypes with
          | none => none
          | some true => some .closed
          | some false => some .unhandled
        else some .unhandled
      | some (.nonfn name ty) =>
        let isTarget := isTargetType ty targetTypes
        if isTarget && name == closeMethod then some .closed
        else some .unhandled
    | .phi _ => some .passed
    | .makeInterface _ => some .passed
    | .store addrIsFieldAddr addrReferrers =>
      if addrIsFieldAddr then some .returned
      else if addrReferrers.length = 0 then some .noOp
      else
        match gAddrRefsHandled env fuel addrReferrers targetTypes with
        | none => none
        | some true => some .handled
        | some false => some .unhandled
    | .unOp ty referrers =>
      match gUnOpLoop env fuel ty referrers targetTypes targetTypes with
      | none => none
      | some true => some .handled
      | some false => some .unhandled
    | .fieldAddr referrers =>
      match gIsClosed env fuel referrers targetTypes with
      | none => none
      | some true => some .handled
      | some false => some .unhandled
    | .ret results =>
      if results.any (fun r => targetTypes.any (ttMatches r)) then
        some .returned
      else some .unhandled
    | .other => some .unhandled

/-- Fuel-indexed block loop over an environment. -/
def gAnyBlockClosed (env : GEnv) :
    Nat → List (List GInstr) → List TTEntry → Option Bool
  | 0, _, _ => none
  | _ + 1, [], _ => some false
  | fuel + 1, b :: bs, targetTypes =>
    match gIsClosed env fuel b targetTypes with
    | none => none
    | some true => some true
    | some false => gAnyBlockClosed env fuel bs targetTypes

/-- Fuel-indexed store-address-referrer loop over an environment. -/
def gAddrRefsHandled (env : GEnv) :
    Nat → List GAddrRef → List TTEntry → Option Bool
  | 0, _, _ => none
  | _ + 1, [], _ => some false
  | fuel + 1, .makeClosure (some fid) :: rest, targetTypes =>
    match gAnyBlockClosed env fuel (env fid) targetTypes with
    | none => none
    | some true => some true
    | some false => gAddrRefsHandled env fuel rest targetTypes
  | fuel + 1, _ :: rest, targetTypes =>
    gAddrRefsHandled env fuel rest targetTypes

/-- Fuel-indexed `UnOp` target-type loop over an environment. -/
def gUnOpLoop (env : GEnv) :
    Nat → GoType → List GInstr → List TTEntry → List TTEntry → Option Bool
  | 0, _, _, _, _ => none
  | _ + 1, _, _, [], _ => some false
  | fuel + 1, ty, referrers, e :: rest, targetTypes =>
    match e with
    | .pointer t =>
      if ty = t then
        match gIsClosed env fuel referrers targetTypes with
        | none => none
        | some true => some true
        | some false => gUnOpLoop env fuel ty referrers rest targetTypes
      else gUnOpLoop env fuel ty referrers rest targetTypes
    | .named t =>
      if ty = t then
        match gIsClosed env fuel referrers targetTypes with
        | none => none
        | some true => some true
        | some false => gUnOpLoop env fuel ty referrers rest targetTypes
      else gUnOpLoop env fuel ty referrers rest targetTypes
    | .other => gUnOpLoop env fuel ty referrers rest targetTypes
end

/-- The function indices a `Call.Value` can lead the walk into. -/
def gValueCallees : Option GCallValue → List Nat
  | some (.fn _ _ fid) => [fid]
  | _ => []

mutual
/-- Every function index reachable from one instruction in one step of
the interprocedural/closure-body walk (static callees of calls and
deferred calls, closure bodies captured by stores), collected over the
embedded referrer trees. -/
def gInstrCallees : GInstr → List Nat
  | .deferI value _ => gValueCallees value
  | .call value _ => gValueCallees value
  | .phi referrers => gInstrsCallees referrers
  | .makeInterface referrers => gInstrsCallees referrers
  | .store _ addrReferrers => gAddrRefsCallees addrReferrers
  | .unOp _ referrers => gInstrsCallees referrers
  | .fieldAddr referrers => gInstrsCallees referrers
  | .ret _ => []
  | .other => []
termination_by instr => (sizeOf instr, 0)
decreasing_by all_goals (simp_wf; omega)

/-- `gInstrCallees` over an instruction list. -/
def gInstrsCallees : List GInstr → List Nat
  | [] => []
  | i :: rest => gInstrCallees i ++ gInstrsCallees rest
termination_by instrs => (sizeOf instrs, 0)
decreasing_by all_goals (simp_wf; omega)

/-- `gInstrCallees` over a store-address referrer list. -/
def gAddrRefsCallees : List GAddrRef → List Nat
  | [] => []
  | .makeClosure (some fid) :: rest => fid :: gAddrRefsCallees rest
  | _ :: rest => gAddrRefsCallees rest
termination_by refs => (sizeOf refs, 0)
decreasing_by all_goals (simp_wf; omega)
end

/-- `gInstrCallees` over a function body. -/
def gBlocksCallees : List (List GInstr) → List Nat
  | [] => []
  | b :: bs => gInstrsCallees b ++ gBlocksCallees bs

/-- An environment whose static-callee/closure-body chain is acyclic:
some rank strictly decreases along every callee edge, so no body can
reach itself again. -/
def RankedEnv (env : GEnv) (rank : Nat → Nat) : Prop :=
  ∀ fid fid', fid' ∈ gBlocksCallees (env fid) → rank fid' < rank fid

/-- A non-target call `f()` whose static callee is function index 0. -/
def gCycCall : GInstr := .call (some (.fn "f" none 0)) none

/-- The cyclic environment: function 0's body is a single block holding
a single call back to function 0. -/
def cycEnv : GEnv := fun _ => [[gCycCall]]

/-- One more than the largest rank among a list of function indices. -/
def rankBound (rank : Nat → Nat) : List Nat → Nat
  | [] => 0
  | fid :: rest => max (rank fid + 1) (rankBound rank rest)

/-- C1: the closure-reachability walk returns false on an empty
referrer list; on a nonempty list it returns true exactly when the
first referrer classifies as Closed or Handled or the walk of the
remaining referrers does — so it walks referrers in their natural
order, short-circuits to true at the first Closed/Handled
classification, continues past referrers classifying as Returned,
Unhandled, UnvaluedCall or UnvaluedDefer, and returns false when the
list is exhausted without a Closed/Handled classification. -/
theorem isClosed_first_match (targetTypes : List TTEntry)
    (r : Instruction) (rest : List Instruction) :
    isClosed [] targetTypes = false ∧
    isClosed (r :: rest) targetTypes =
      (decide (getAction r targetTypes = .closed) ||
       decide (getAction r targetTypes = .handled) ||
       isClosed rest targetTypes) := by
  refine ⟨by simp [isClosed], ?_⟩
  simp only [isClosed]
  cases h : getAction r targetTypes <;> simp

/-- C2: a control-flow merge (Phi) and an interface-boxing operation
(MakeInterface) both classify as the inert Passed action regardless of
their consumers, the reachability walk does not recurse into the
merge/box result's consumers, and hence a value whose only route to a
cleanup call passes through such an instruction is reported unclosed —
concretely, a value flowing into a merge whose result is closed by a
deferred cleanup call is still classified unclosed, although the same
deferred cleanup call seen directly would classify the value closed. -/
theorem passed_is_inert (targetTypes : List TTEntry)
    (refs rest : List Instruction) :
    getAction (.phi refs) targetTypes = .passed ∧
    getAction (.makeInterface refs) targetTypes = .passed ∧
    isClosed (.phi refs :: rest) targetTypes = isClosed rest targetTypes ∧
    isClosed (.makeInterface refs :: rest) targetTypes =
      isClosed rest targetTypes ∧
    getAction deferClose tts0 = .closed ∧
    isClosed [deferClose] tts0 = true ∧
    isClosed [.phi [deferClose]] tts0 = false ∧
    isClosed [.makeInterface [deferClose]] tts0 = false := by
  refine ⟨by simp [getAction], by simp [getAction], ?_, ?_, ?_, ?_, ?_, ?_⟩
  · simp only [isClosed]; simp [getAction]
  · simp only [isClosed]; simp [getAction]
  · simp [getAction, deferClose, valueNamed, CallValue.name, closeMethod]
  · simp [isClosed, getAction, deferClose, valueNamed, CallValue.name,
      closeMethod]
  · simp [isClosed, getAction, deferClose, valueNamed, CallValue.name,
      closeMethod]
  · simp [isClosed, getAction, deferClose, valueNamed, CallValue.name,
      closeMethod]

/-- C3: when the resolved target-type set of a program is empty, `Run`
returns with zero diagnostics whatever the program's functions contain
— the fast path at lines 76-78 of legacy.go fires before any function,
block or instruction is scanned. -/
theorem run_empty_targets (types : List GoType)
    (funcs : List (List (List ClosableSite)))
    (h : getTargetTypes ⟨types, funcs⟩ sqlPackages = []) :
    run ⟨types, funcs⟩ = [] := by
  simp [run, h]

/-- Witness for C3: a program whose type universe holds no allow-listed
type resolves to an empty target-type set, and `Run` on it emits
nothing even though its single function contains a closable-looking
call site that is never closed. -/
theorem run_empty_targets_witness :
    getTargetTypes
        ⟨[.basic "int"], [[[⟨3, true, some (.basic "int"), []⟩]]]⟩
        sqlPackages = [] ∧
    run ⟨[.basic "int"], [[[⟨3, true, some (.basic "int"), []⟩]]]⟩ = [] :=
  ⟨by simp [getTargetTypes],
    run_empty_targets _ _ (by simp [getTargetTypes])⟩

/-- C7: a return instruction carrying a target-typed result classifies
as Returned, a store into a struct field address classifies as Returned
whatever the address's referrers, the reachability walk continues past
a Returned referrer without following the value, and a value whose only
referrer is such a return is reported as not closed with a single
diagnostic at its allocation site. -/
theorem returned_not_followed (targetTypes : List TTEntry)
    (results : List GoType) (addrRefs : List AddrRef)
    (r : Instruction) (rest : List Instruction) :
    (results.any (fun x => targetTypes.any (ttMatches x)) = true →
      getAction (.ret results) targetTypes = .returned) ∧
    getAction (.store true addrRefs) targetTypes = .returned ∧
    (getAction r targetTypes = .returned →
      isClosed (r :: rest) targetTypes = isClosed rest targetTypes) ∧
    (results.any (fun x => targetTypes.any (ttMatches x)) = true →
      ∀ (p : Nat) (c : Bool) (rt : Option GoType),
        processValue ⟨p, c, rt, [.ret results]⟩ targetTypes =
          [⟨p, notClosedMsg⟩]) := by
  refine ⟨fun h => by simp [getAction, h], by simp [getAction], ?_, ?_⟩
  · intro h
    simp only [isClosed]
    rw [h]
  · intro h p c rt
    have hact : getAction (.ret results) targetTypes = .returned := by
      simp [getAction, h]
    simp [processValue, isClosed, checkDeferred, hact]

/-- Witness for C7: with `database/sql.Rows` resolved, a return of a
`*Rows` result classifies as Returned, is walked past, and a value only
returned is reported unclosed at its site. -/
theorem returned_not_followed_witness :
    getAction (.ret [.ptr rowsTy]) tts0 = .returned ∧
    isClosed [.ret [.ptr rowsTy], .other] tts0 =
      isClosed [.other] tts0 ∧
    processValue ⟨7, true, some (.ptr rowsTy), [.ret [.ptr rowsTy]]⟩ tts0 =
      [⟨7, notClosedMsg⟩] := by
  have h : ([GoType.ptr rowsTy]).any
      (fun x => tts0.any (ttMatches x)) = true := by
    simp [tts0, ttMatches]
  exact ⟨(returned_not_followed tts0 [.ptr rowsTy] [] .other []).1 h,
    (returned_not_followed tts0 [.ptr rowsTy] [] (.ret [.ptr rowsTy])
      [.other]).2.2.1 ((returned_not_followed tts0 [.ptr rowsTy] [] .other
        []).1 h),
    (returned_not_followed tts0 [.ptr rowsTy] [] .other []).2.2.2 h 7 true
      (some (.ptr rowsTy))⟩

/-- C10: in the deferred-usage walk, a store whose address has zero
referrers terminates the walk of the entire remaining referrer list —
nothing after it is checked, whatever it is; concretely, a bare cleanup
call that alone would draw a "Close should use defer" diagnostic draws
nothing when a dead store precedes it in the same referrer list. -/
theorem dead_store_stops_walk (targetTypes : List TTEntry) (isFA : Bool)
    (rest : List Instruction) (inDefer : Bool) :
    checkDeferred (.store isFA [] :: rest) targetTypes inDefer = [] ∧
    checkDeferred [bareClose 5] tts0 false = [⟨5, useDeferMsg⟩] ∧
    checkDeferred [.store false [], bareClose 5] tts0 false = [] := by
  refine ⟨?_, ?_, ?_⟩
  · simp [checkDeferred]
  · simp [checkDeferred, bareClose, valueNamed, CallValue.name, closeMethod]
  · simp [checkDeferred]

/-- C4: the deferred-usage walk stops at the first cleanup call it
finds — a deferred cleanup call (matched by its value's or its
interface method's name) ends the branch with no diagnostic, a
non-deferred cleanup call ends the branch with exactly one "Close
should use defer" diagnostic at its own position when outside a
deferred scope and with none inside one, and in every case nothing
after that call in the branch is examined; a value closed only via a
bare cleanup call on a target-typed receiver draws exactly that one
style diagnostic and no "not closed" diagnostic. -/
theorem checkDeferred_first_cleanup (targetTypes : List TTEntry)
    (value : Option CallValue) (method : Option String)
    (rest : List Instruction) (pos : Nat) (inDefer : Bool) :
    (valueNamed value closeMethod = true →
      checkDeferred (.deferI value method :: rest) targetTypes inDefer
        = []) ∧
    (methodNamed method closeMethod = true →
      checkDeferred (.deferI value method :: rest) targetTypes inDefer
        = []) ∧
    (valueNamed value closeMethod = true →
      checkDeferred (.call pos value method :: rest) targetTypes false =
        [⟨pos, useDeferMsg⟩]) ∧
    (valueNamed value closeMethod = true →
      checkDeferred (.call pos value method :: rest) targetTypes true
        = []) ∧
    (∀ recvTy : GoType, isTargetType recvTy targetTypes = true →
      ∀ (ppos : Nat) (c : Bool) (rt : Option GoType),
        processValue
            ⟨ppos, c, rt,
              [.call pos (some (.fn closeMethod (some recvTy) [])) none]⟩
            targetTypes
          = [⟨pos, useDeferMsg⟩]) := by
  refine ⟨fun h => by simp [checkDeferred, h], ?_,
    fun h => by simp [checkDeferred, h],
    fun h => by simp [checkDeferred, h], ?_⟩
  · intro h
    by_cases hv : valueNamed value closeMethod <;>
      simp [checkDeferred, hv, h]
  · intro recvTy h ppos c rt
    have hact :
        getAction (.call pos (some (.fn closeMethod (some recvTy) [])) none)
          targetTypes = .closed := by
      simp [getAction, h]
    simp [processValue, isClosed, hact, checkDeferred, valueNamed,
      CallValue.name]

/-- Witness for C4: a deferred `rows.Close()` ends the walk silently
even with a bare close behind it; a bare `rows.Close()` draws exactly
one style diagnostic at its position and stops the walk; a value whose
sole referrer is that bare close gets the style diagnostic and no "not
closed" diagnostic. -/
theorem checkDeferred_first_cleanup_witness :
    checkDeferred [deferClose, bareClose 5] tts0 false = [] ∧
    checkDeferred [bareClose 5, .other] tts0 false = [⟨5, useDeferMsg⟩] ∧
    processValue ⟨9, true, some (.ptr rowsTy), [bareClose 5]⟩ tts0 =
      [⟨5, useDeferMsg⟩] := by
  refine ⟨?_, ?_, ?_⟩
  · exact (checkDeferred_first_cleanup tts0
      (some (.fn "Close" (some (.ptr rowsTy)) [])) none [bareClose 5] 5
      false).1 (by simp [valueNamed, CallValue.name, closeMethod])
  · exact (checkDeferred_first_cleanup tts0
      (some (.fn "Close" (some (.ptr rowsTy)) [])) none [.other] 5
      false).2.2.1 (by simp [valueNamed, CallValue.name, closeMethod])
  · exact (checkDeferred_first_cleanup tts0 none none [] 5 false).2.2.2.2
      (.ptr rowsTy) (by simp [isTargetType, tts0, ttMatches]) 9 true
      (some (.ptr rowsTy))

/-- Counterexample to C5 as stated.  First half: a deferred call whose
value is named `Close` classifies as Closed even though its receiver
type is not target-typed and it is no function literal — so a deferred
call returning Closed does not imply a cleanup call on a target-typed
receiver or a closing literal.  Second half: a call whose statically
resolvable callee (`Wrap`, receiver `*Rows`) has a body containing a
block that closes the target classifies as Unhandled, not Closed,
because the body walk only runs for non-target-typed callees — so the
claimed "exactly when" equivalence fails in both directions. -/
theorem call_policy_counterexample :
    getAction (.deferI (some (.nonfn "Close" (.basic "int"))) none) tts0 =
      .closed ∧
    isTargetType (.basic "int") tts0 = false ∧
    getAction
        (.call 1 (some (.fn "Wrap" (some (.ptr rowsTy)) [[bareClose 0]]))
          none) tts0 = .unhandled ∧
    anyBlockClosed [[bareClose 0]] tts0 = true ∧
    recvIsTarget (some (.ptr rowsTy)) tts0 = true := by
  refine ⟨?_, by simp [isTargetType, tts0, ttMatches, rowsTy], ?_, ?_, ?_⟩
  · simp [getAction, valueNamed, CallValue.name, closeMethod]
  · simp [getAction, isTargetType, tts0, ttMatches, closeMethod]
  · simp [anyBlockClosed, isClosed, getAction, bareClose, isTargetType,
      tts0, ttMatches, closeMethod]
  · simp [recvIsTarget, isTargetType, tts0, ttMatches]

/-- C5 as amended: a call with a statically resolved callee classifies
as Closed exactly when the callee's receiver is target-typed and its
name is the cleanup-method name, or the receiver is NOT target-typed
and some block of the callee's body closes the target; a call with an
unresolved callee value classifies as Closed exactly when the value's
own type is target-typed and its name is the cleanup-method name; a
call with no callee value classifies as UnvaluedCall; a deferred call
classifies as Closed exactly when its value or its interface method is
named the cleanup-method name (with no typing requirement), or there is
no interface method and the deferred value is a statically known
function some block of whose body closes the target. -/
theorem getAction_closed_iff (targetTypes : List TTEntry) (pos : Nat)
    (method : Option String) (name : String) (recv : Option GoType)
    (blocks : List (List Instruction)) (ty : GoType)
    (value : Option CallValue) :
    (getAction (.call pos (some (.fn name recv blocks)) method)
        targetTypes = .closed ↔
      (recvIsTarget recv targetTypes = true ∧ name = closeMethod) ∨
      (recvIsTarget recv targetTypes = false ∧
        anyBlockClosed blocks targetTypes = true)) ∧
    (getAction (.call pos (some (.nonfn name ty)) method) targetTypes
        = .closed ↔
      (isTargetType ty targetTypes = true ∧ name = closeMethod)) ∧
    getAction (.call pos none method) targetTypes = .unvaluedCall ∧
    (getAction (.deferI value method) targetTypes = .closed ↔
      (valueNamed value closeMethod = true ∨
       methodNamed method closeMethod = true ∨
       (method = none ∧ deferBodyClosed value targetTypes = true))) := by
  refine ⟨?_, ?_, by simp [getAction], ?_⟩
  · cases recv with
    | none =>
      cases hb : anyBlockClosed blocks targetTypes <;>
        simp [getAction, recvIsTarget, hb]
    | some rt =>
      by_cases hT : isTargetType rt targetTypes = true
      · by_cases hn : name = closeMethod <;>
          simp [getAction, recvIsTarget, hT, hn]
      · rw [Bool.not_eq_true] at hT
        cases hb : anyBlockClosed blocks targetTypes <;>
          simp [getAction, recvIsTarget, hT, hb]
  · by_cases hT : isTargetType ty targetTypes = true
    · by_cases hn : name = closeMethod <;> simp [getAction, hT, hn]
    · rw [Bool.not_eq_true] at hT
      simp [getAction, hT]
  · cases value with
    | none =>
      cases method with
      | none => simp [getAction, valueNamed, methodNamed, deferBodyClosed]
      | some m =>
        cases hm : m == closeMethod <;>
          simp [getAction, valueNamed, methodNamed, deferBodyClosed, hm]
    | some v =>
      cases v with
      | fn n r bs =>
        cases hn : n == closeMethod with
        | true =>
          cases method <;>
            simp [getAction, valueNamed, CallValue.name, methodNamed, hn]
        | false =>
          cases method with
          | none =>
            cases hb : anyBlockClosed bs targetTypes <;>
              simp [getAction, valueNamed, CallValue.name, methodNamed,
                deferBodyClosed, hn, hb]
          | some m =>
            cases hm : m == closeMethod <;>
              simp [getAction, valueNamed, CallValue.name, methodNamed,
                deferBodyClosed, hn, hm]
      | nonfn n t =>
        cases hn : n == closeMethod with
        | true =>
          cases method <;>
            simp [getAction, valueNamed, CallValue.name, methodNamed, hn]
        | false =>
          cases method with
          | none =>
            simp [getAction, valueNamed, CallValue.name, methodNamed,
              deferBodyClosed, hn]
          | some m =>
            cases hm : m == closeMethod <;>
              simp [getAction, valueNamed, CallValue.name, methodNamed,
                deferBodyClosed, hn, hm]

/-- Witness for the amended C5: a direct `rows.Close()` call classifies
as Closed through the target-typed-receiver disjunct, and a deferred
statically known function whose body closes the target classifies as
Closed through the body-walk disjunct. -/
theorem getAction_closed_iff_witness :
    getAction (.call 2 (some (.fn "Close" (some (.ptr rowsTy)) [])) none)
      tts0 = .closed ∧
    getAction (.deferI (some (.fn "cleanup" none [[bareClose 0]])) none)
      tts0 = .closed := by
  constructor
  · exact (getAction_closed_iff tts0 2 none "Close" (some (.ptr rowsTy))
      [] (.basic "x") none).1.mpr
      (Or.inl ⟨by simp [recvIsTarget, isTargetType, tts0, ttMatches], rfl⟩)
  · exact (getAction_closed_iff tts0 0 none "cleanup" none [] (.basic "x")
      (some (.fn "cleanup" none [[bareClose 0]]))).2.2.2.mpr
      (Or.inr (Or.inr ⟨rfl, by
        simp [deferBodyClosed, anyBlockClosed, isClosed, getAction,
          bareClose, isTargetType, tts0, ttMatches, closeMethod]⟩))

/-- Counterexample to C6 as stated: a call whose target cannot be
statically resolved (its callee value is present but is no statically
known function, as with indirect or interface dispatch) classifies as
Unhandled, not UnvaluedCall — UnvaluedCall needs an absent callee
value. -/
theorem unresolved_call_counterexample :
    getAction (.call 0 (some (.nonfn "f" (.basic "func()"))) none) tts0 =
      .unhandled ∧
    Action.unhandled ≠ Action.unvaluedCall := by
  refine ⟨?_, by simp⟩
  simp [getAction, isTargetType, tts0, ttMatches, closeMethod]

/-- C6 as amended: a call with an absent callee value classifies as
UnvaluedCall; a call with an unresolved callee value classifies as
Closed when the value is target-typed and named the cleanup-method
name, and Unhandled otherwise; a deferred call with an unresolved value
classifies as Closed when the value or the interface method is named
the cleanup-method name and UnvaluedDefer otherwise, and likewise with
no value at all — every ambiguous or unresolved instruction degrades to
one of these actions, never aborting the analysis. -/
theorem unresolved_degrades (targetTypes : List TTEntry) (pos : Nat)
    (method : Option String) (name : String) (ty : GoType) :
    getAction (.call pos none method) targetTypes = .unvaluedCall ∧
    getAction (.call pos (some (.nonfn name ty)) method) targetTypes =
      (if isTargetType ty targetTypes && (name == closeMethod) then
        Action.closed
       else Action.unhandled) ∧
    getAction (.deferI (some (.nonfn name ty)) method) targetTypes =
      (if name == closeMethod then Action.closed
       else if methodNamed method closeMethod then Action.closed
       else Action.unvaluedDefer) ∧
    getAction (.deferI none method) targetTypes =
      (if methodNamed method closeMethod then Action.closed
       else Action.unvaluedDefer) := by
  refine ⟨by simp [getAction], ?_, ?_, ?_⟩
  · cases hT : isTargetType ty targetTypes <;>
      cases hn : name == closeMethod <;> simp [getAction, hT, hn]
  · cases hn : name == closeMethod with
    | true =>
      cases method <;> simp [getAction, valueNamed, CallValue.name, hn]
    | false =>
      cases method with
      | some m =>
        cases hm : m == closeMethod <;>
          simp [getAction, valueNamed, CallValue.name, hn, hm, methodNamed]
      | none => simp [getAction, valueNamed, CallValue.name, hn, methodNamed]
  · cases method with
    | some m =>
      cases hm : m == closeMethod <;>
        simp [getAction, valueNamed, hm, methodNamed]
    | none => simp [getAction, valueNamed, methodNamed]

/-- Witness for the amended C6: the three unresolved shapes at concrete
inputs — no callee value, an indirect callee value, and an indirect
deferred value — degrade to UnvaluedCall, Unhandled and UnvaluedDefer
respectively. -/
theorem unresolved_degrades_witness :
    getAction (.call 3 none none) tts0 = .unvaluedCall ∧
    getAction (.call 3 (some (.nonfn "g" (.basic "func()"))) none) tts0 =
      .unhandled ∧
    getAction (.deferI (some (.nonfn "g" (.basic "func()"))) none) tts0 =
      .unvaluedDefer := by
  refine ⟨(unresolved_degrades tts0 3 none "g" (.basic "func()")).1, ?_, ?_⟩
  · have h := (unresolved_degrades tts0 3 none "g" (.basic "func()")).2.1
    rw [h]
    simp [isTargetType, tts0, ttMatches, closeMethod]
  · have h := (unresolved_degrades tts0 3 none "g" (.basic "func()")).2.2.1
    rw [h]
    simp [methodNamed, closeMethod]

/-- On the cyclic environment, the walk consumes all fuel and never
returns: the mutual recursion `isClosed` / `getAction` re-enters the
callee's body with no memoization and no cycle guard. -/
theorem cyc_diverges (targetTypes : List TTEntry) (fuel : Nat) :
    gGetAction cycEnv fuel gCycCall targetTypes = none ∧
    gAnyBlockClosed cycEnv fuel [[gCycCall]] targetTypes = none ∧
    gIsClosed cycEnv fuel [gCycCall] targetTypes = none := by
  induction fuel with
  | zero => exact ⟨rfl, rfl, rfl⟩
  | succ n ih =>
    refine ⟨?_, ?_, ?_⟩
    · show gGetAction cycEnv (n + 1) gCycCall targetTypes = none
      have h := ih.2.1
      simp only [gCycCall] at h ⊢
      simp only [gGetAction]
      have e : cycEnv 0 = [[GInstr.call (some (GCallValue.fn "f" none 0)) none]] := by
        simp [cycEnv, gCycCall]
      rw [e]
      simp [h]
    · simp only [gAnyBlockClosed]
      simp [ih.2.2]
    · simp only [gIsClosed]
      simp [ih.1]

mutual
/-- Fuel monotonicity: a settled `gIsClosed` result is preserved by
more fuel. -/
theorem gIsClosed_mono (env : GEnv) (fuel fuel' : Nat) (h : fuel ≤ fuel')
    (refs : List GInstr) (targetTypes : List TTEntry) (b : Bool)
    (hres : gIsClosed env fuel refs targetTypes = some b) :
    gIsClosed env fuel' refs targetTypes = some b := by
  cases fuel with
  | zero => exact absurd hres (by simp [gIsClosed])
  | succ f =>
    cases fuel' with
    | zero => exact absurd h (by omega)
    | succ f' =>
      have hff : f ≤ f' := by omega
      cases refs with
      | nil => simpa [gIsClosed] using hres
      | cons ref rest =>
        simp only [gIsClosed] at hres ⊢
        cases hga : gGetAction env f ref targetTypes with
        | none => rw [hga] at hres; exact absurd hres (by simp)
        | some a =>
          rw [hga] at hres
          rw [gGetAction_mono env f f' hff ref targetTypes a hga]
          cases a <;>
            first
              | exact hres
              | exact gIsClosed_mono env f f' hff rest targetTypes b hres
termination_by fuel
decreasing_by all_goals omega

/-- Fuel monotonicity for `gGetAction`. -/
theorem gGetAction_mono (env : GEnv) (fuel fuel' : Nat) (h : fuel ≤ fuel')
    (instr : GInstr) (targetTypes : List TTEntry) (a : Action)
    (hres : gGetAction env fuel instr targetTypes = some a) :
    gGetAction env fuel' instr targetTypes = some a := by
  cases fuel with
  | zero => exact absurd hres (by simp [gGetAction])
  | succ f =>
    cases fuel' with
    | zero => exact absurd h (by omega)
    | succ f' =>
      have hff : f ≤ f' := by omega
      cases instr with
      | deferI value method =>
        cases value with
        | none =>
          cases method <;> (simp only [gGetAction] at hres ⊢; exact hres)
        | some v =>
          cases v with
          | nonfn n t =>
            cases method <;> (simp only [gGetAction] at hres ⊢; exact hres)
          | fn n r fid =>
            cases method with
            | some m => simp only [gGetAction] at hres ⊢; exact hres
            | none =>
              simp only [gGetAction] at hres ⊢
              by_cases hv :
                  gValueNamed (some (.fn n r fid)) closeMethod = true
              · rw [if_pos hv] at hres ⊢; exact hres
              · rw [if_neg hv] at hres ⊢
                cases hb : gAnyBlockClosed env f (env fid) targetTypes with
                | none => rw [hb] at hres; exact absurd hres (by simp)
                | some bb =>
                  rw [hb] at hres
                  rw [gAnyBlockClosed_mono env f f' hff (env fid)
                    targetTypes bb hb]
                  exact hres
      | call value method =>
        cases value with
        | none => simp only [gGetAction] at hres ⊢; exact hres
        | some v =>
          cases v with
          | nonfn n t => simp only [gGetAction] at hres ⊢; exact hres
          | fn n r fid =>
            simp only [gGetAction] at hres ⊢
            split at hres
            · next hc => rw [if_pos hc]; exact hres
            · next hc =>
              rw [if_neg hc]
              split at hres
              · next hc2 =>
                rw [if_pos hc2]
                cases hb : gAnyBlockClosed env f (env fid) targetTypes with
                | none => rw [hb] at hres; exact absurd hres (by simp)
                | some bb =>
                  rw [hb] at hres
                  rw [gAnyBlockClosed_mono env f f' hff (env fid)
                    targetTypes bb hb]
                  exact hres
              · next hc2 => rw [if_neg hc2]; exact hres
      | phi referrers => simp only [gGetAction] at hres ⊢; exact hres
      | makeInterface referrers =>
        simp only [gGetAction] at hres ⊢; exact hres
      | store isFA addrRefs =>
        simp only [gGetAction] at hres ⊢
        split at hres
        · next hc => rw [if_pos hc]; exact hres
        · next hc =>
          rw [if_neg hc]
          split at hres
          · next hc2 => rw [if_pos hc2]; exact hres
          · next hc2 =>
            rw [if_neg hc2]
            cases hb : gAddrRefsHandled env f addrRefs targetTypes with
            | none => rw [hb] at hres; exact absurd hres (by simp)
            | some bb =>
              rw [hb] at hres
              rw [gAddrRefsHandled_mono env f f' hff addrRefs targetTypes
                bb hb]
              exact hres
      | unOp ty referrers =>
        simp only [gGetAction] at hres ⊢
        cases hb : gUnOpLoop env f ty referrers targetTypes targetTypes with
        | none => rw [hb] at hres; exact absurd hres (by simp)
        | some bb =>
          rw [hb] at hres
          rw [gUnOpLoop_mono env f f' hff ty referrers targetTypes
            targetTypes bb hb]
          exact hres
      | fieldAddr referrers =>
        simp only [gGetAction] at hres ⊢
        cases hb : gIsClosed env f referrers targetTypes with
        | none => rw [hb] at hres; exact absurd hres (by simp)
        | some bb =>
          rw [hb] at hres
          rw [gIsClosed_mono env f f' hff referrers targetTypes bb hb]
          exact hres
      | ret results => simp only [gGetAction] at hres ⊢; exact hres
      | other => simp only [gGetAction] at hres ⊢; exact hres
termination_by fuel
decreasing_by all_goals omega

/-- Fuel monotonicity for `gAnyBlockClosed`. -/
theorem gAnyBlockClosed_mono (env : GEnv) (fuel fuel' : Nat)
    (h : fuel ≤ fuel') (blocks : List (List GInstr))
    (targetTypes : List TTEntry) (b : Bool)
    (hres : gAnyBlockClosed env fuel blocks targetTypes = some b) :
    gAnyBlockClosed env fuel' blocks targetTypes = some b := by
  cases fuel with
  | zero => exact absurd hres (by simp [gAnyBlockClosed])
  | succ f =>
    cases fuel' with
    | zero => exact absurd h (by omega)
    | succ f' =>
      have hff : f ≤ f' := by omega
      cases blocks with
      | nil => simpa [gAnyBlockClosed] using hres
      | cons bl bs =>
        simp only [gAnyBlockClosed] at hres ⊢
        cases hb : gIsClosed env f bl targetTypes with
        | none => rw [hb] at hres; exact absurd hres (by simp)
        | some bb =>
          rw [hb] at hres
          rw [gIsClosed_mono env f f' hff bl targetTypes bb hb]
          cases bb with
          | true => exact hres
          | false =>
            exact gAnyBlockClosed_mono env f f' hff bs targetTypes b hres
termination_by fuel
decreasing_by all_goals omega

/-- Fuel monotonicity for `gAddrRefsHandled`. -/
theorem gAddrRefsHandled_mono (env : GEnv) (fuel fuel' : Nat)
    (h : fuel ≤ fuel') (refs : List GAddrRef) (targetTypes : List TTEntry)
    (b : Bool)
    (hres : gAddrRefsHandled env fuel refs targetTypes = some b) :
    gAddrRefsHandled env fuel' refs targetTypes = some b := by
  cases fuel with
  | zero => exact absurd hres (by simp [gAddrRefsHandled])
  | succ f =>
    cases fuel' with
    | zero => exact absurd h (by omega)
    | succ f' =>
      have hff : f ≤ f' := by omega
      cases refs with
      | nil => simpa [gAddrRefsHandled] using hres
      | cons aRef rest =>
        cases aRef with
        | otherRef =>
          simp only [gAddrRefsHandled] at hres ⊢
          exact gAddrRefsHandled_mono env f f' hff rest targetTypes b hres
        | makeClosure ofid =>
          cases ofid with
          | none =>
            simp only [gAddrRefsHandled] at hres ⊢
            exact gAddrRefsHandled_mono env f f' hff rest targetTypes b hres
          | some fid =>
            simp only [gAddrRefsHandled] at hres ⊢
            cases hb : gAnyBlockClosed env f (env fid) targetTypes with
            | none => rw [hb] at hres; exact absurd hres (by simp)
            | some bb =>
              rw [hb] at hres
              rw [gAnyBlockClosed_mono env f f' hff (env fid) targetTypes
                bb hb]
              cases bb with
              | true => exact hres
              | false =>
                exact gAddrRefsHandled_mono env f f' hff rest targetTypes
                  b hres
termination_by fuel
decreasing_by all_goals omega

/-- Fuel monotonicity for `gUnOpLoop`. -/
theorem gUnOpLoop_mono (env : GEnv) (fuel fuel' : Nat) (h : fuel ≤ fuel')
    (ty : GoType) (referrers : List GInstr)
    (remaining targetTypes : List TTEntry) (b : Bool)
    (hres : gUnOpLoop env fuel ty referrers remaining targetTypes
      = some b) :
    gUnOpLoop env fuel' ty referrers remaining targetTypes = some b := by
  cases fuel with
  | zero => exact absurd hres (by simp [gUnOpLoop])
  | succ f =>
    cases fuel' with
    | zero => exact absurd h (by omega)
    | succ f' =>
      have hff : f ≤ f' := by omega
      cases remaining with
      | nil => simpa [gUnOpLoop] using hres
      | cons e rest =>
        cases e with
        | other =>
          simp only [gUnOpLoop] at hres ⊢
          exact gUnOpLoop_mono env f f' hff ty referrers rest targetTypes
            b hres
        | pointer t =>
          simp only [gUnOpLoop] at hres ⊢
          split at hres
          · next hc =>
            rw [if_pos hc]
            cases hb : gIsClosed env f referrers targetTypes with
            | none => rw [hb] at hres; exact absurd hres (by simp)
            | some bb =>
              rw [hb] at hres
              rw [gIsClosed_mono env f f' hff referrers targetTypes bb hb]
              cases bb with
              | true => exact hres
              | false =>
                exact gUnOpLoop_mono env f f' hff ty referrers rest
                  targetTypes b hres
          · next hc =>
            rw [if_neg hc]
            exact gUnOpLoop_mono env f f' hff ty referrers rest targetTypes
              b hres
        | named t =>
          simp only [gUnOpLoop] at hres ⊢
          split at hres
          · next hc =>
            rw [if_pos hc]
            cases hb : gIsClosed env f referrers targetTypes with
            | none => rw [hb] at hres; exact absurd hres (by simp)
            | some bb =>
              rw [hb] at hres
              rw [gIsClosed_mono env f f' hff referrers targetTypes bb hb]
              cases bb with
              | true => exact hres
              | false =>
                exact gUnOpLoop_mono env f f' hff ty referrers rest
                  targetTypes b hres
          · next hc =>
            rw [if_neg hc]
            exact gUnOpLoop_mono env f f' hff ty referrers rest targetTypes
              b hres
termination_by fuel
decreasing_by all_goals omega
end

/-- Unfolding lemma for `gInstrsCallees` on a cons cell. -/
theorem gInstrsCallees_cons (i : GInstr) (rest : List GInstr) :
    gInstrsCallees (i :: rest) = gInstrCallees i ++ gInstrsCallees rest := by
  simp [gInstrsCallees]

mutual
/-- On a ranked (acyclic) environment, some finite fuel settles
`gIsClosed` on any referrer list whose callees all rank below `N`. -/
theorem gIsClosed_total (env : GEnv) (rank : Nat → Nat)
    (hR : RankedEnv env rank) (N : Nat) (refs : List GInstr)
    (targetTypes : List TTEntry)
    (hN : ∀ fid ∈ gInstrsCallees refs, rank fid < N) :
    ∃ fuel b, gIsClosed env fuel refs targetTypes = some b := by
  cases refs with
  | nil => exact ⟨1, false, rfl⟩
  | cons ref rest =>
    obtain ⟨f1, a, h1⟩ := gGetAction_total env rank hR N ref targetTypes
      (fun fid hm => hN fid
        (by rw [gInstrsCallees_cons]; exact List.mem_append_left _ hm))
    obtain ⟨f2, b2, h2⟩ := gIsClosed_total env rank hR N rest targetTypes
      (fun fid hm => hN fid
        (by rw [gInstrsCallees_cons]; exact List.mem_append_right _ hm))
    refine ⟨max f1 f2 + 1, ?_⟩
    have h1' := gGetAction_mono env f1 (max f1 f2) (le_max_left _ _) ref
      targetTypes a h1
    have h2' := gIsClosed_mono env f2 (max f1 f2) (le_max_right _ _) rest
      targetTypes b2 h2
    simp only [gIsClosed]
    rw [h1']
    cases a <;> first | exact ⟨true, rfl⟩ | exact ⟨b2, h2'⟩
termination_by (N, sizeOf refs, 0)

/-- On a ranked environment, some finite fuel settles `gGetAction` on
any instruction whose callees all rank below `N`. -/
theorem gGetAction_total (env : GEnv) (rank : Nat → Nat)
    (hR : RankedEnv env rank) (N : Nat) (instr : GInstr)
    (targetTypes : List TTEntry)
    (hN : ∀ fid ∈ gInstrCallees instr, rank fid < N) :
    ∃ fuel a, gGetAction env fuel instr targetTypes = some a := by
  cases instr with
  | deferI value method =>
    cases value with
    | none =>
      refine ⟨1, ?_⟩
      simp only [gGetAction]
      repeat' split
      all_goals exact ⟨_, rfl⟩
    | some v =>
      cases v with
      | nonfn n t =>
        refine ⟨1, ?_⟩
        simp only [gGetAction]
        repeat' split
        all_goals exact ⟨_, rfl⟩
      | fn n r fid =>
        cases method with
        | some m =>
          refine ⟨1, ?_⟩
          simp only [gGetAction]
          repeat' split
          all_goals exact ⟨_, rfl⟩
        | none =>
          have hfid : rank fid < N := hN fid
            (by simp [gInstrCallees, gValueCallees])
          obtain ⟨f1, bb, h1⟩ := gAnyBlockClosed_total env rank hR
            (rank fid) (env fid) targetTypes (fun fid' hm => hR fid fid' hm)
          refine ⟨f1 + 1, ?_⟩
          simp only [gGetAction]
          split
          · exact ⟨_, rfl⟩
          · rw [h1]
            cases bb with
            | true => exact ⟨_, rfl⟩
            | false => exact ⟨_, rfl⟩
  | call value method =>
    cases value with
    | none => exact ⟨1, .unvaluedCall, rfl⟩
    | some v =>
      cases v with
      | nonfn n t =>
        refine ⟨1, ?_⟩
        simp only [gGetAction]
        split <;> exact ⟨_, rfl⟩
      | fn n r fid =>
        have hfid : rank fid < N := hN fid
          (by simp [gInstrCallees, gValueCallees])
        obtain ⟨f1, bb, h1⟩ := gAnyBlockClosed_total env rank hR
          (rank fid) (env fid) targetTypes (fun fid' hm => hR fid fid' hm)
        refine ⟨f1 + 1, ?_⟩
        simp only [gGetAction]
        split
        · exact ⟨_, rfl⟩
        · split
          · rw [h1]
            cases bb with
            | true => exact ⟨_, rfl⟩
            | false => exact ⟨_, rfl⟩
          · exact ⟨_, rfl⟩
  | phi referrers => exact ⟨1, .passed, rfl⟩
  | makeInterface referrers => exact ⟨1, .passed, rfl⟩
  | store isFA addrRefs =>
    obtain ⟨f1, bb, h1⟩ := gAddrRefsHandled_total env rank hR N addrRefs
      targetTypes (fun fid hm => hN fid (by simpa [gInstrCallees] using hm))
    refine ⟨f1 + 1, ?_⟩
    simp only [gGetAction]
    split
    · exact ⟨_, rfl⟩
    · split
      · exact ⟨_, rfl⟩
      · rw [h1]
        cases bb with
        | true => exact ⟨_, rfl⟩
        | false => exact ⟨_, rfl⟩
  | unOp ty referrers =>
    obtain ⟨f1, bb, h1⟩ := gUnOpLoop_total env rank hR N ty referrers
      targetTypes targetTypes
      (fun fid hm => hN fid (by simpa [gInstrCallees] using hm))
    refine ⟨f1 + 1, ?_⟩
    simp only [gGetAction]
    rw [h1]
    cases bb with
    | true => exact ⟨_, rfl⟩
    | false => exact ⟨_, rfl⟩
  | fieldAddr referrers =>
    obtain ⟨f1, bb, h1⟩ := gIsClosed_total env rank hR N referrers
      targetTypes (fun fid hm => hN fid (by simpa [gInstrCallees] using hm))
    refine ⟨f1 + 1, ?_⟩
    simp only [gGetAction]
    rw [h1]
    cases bb with
    | true => exact ⟨_, rfl⟩
    | false => exact ⟨_, rfl⟩
  | ret results =>
    refine ⟨1, ?_⟩
    simp only [gGetAction]
    split <;> exact ⟨_, rfl⟩
  | other => exact ⟨1, .unhandled, rfl⟩
termination_by (N, sizeOf instr, 0)

/-- On a ranked environment, some finite fuel settles
`gAnyBlockClosed` on any block list whose callees all rank below
`N`. -/
theorem gAnyBlockClosed_total (env : GEnv) (rank : Nat → Nat)
    (hR : RankedEnv env rank) (N : Nat) (blocks : List (List GInstr))
    (targetTypes : List TTEntry)
    (hN : ∀ fid ∈ gBlocksCallees blocks, rank fid < N) :
    ∃ fuel b, gAnyBlockClosed env fuel blocks targetTypes = some b := by
  cases blocks with
  | nil => exact ⟨1, false, rfl⟩
  | cons bl bs =>
    obtain ⟨f1, b1, h1⟩ := gIsClosed_total env rank hR N bl targetTypes
      (fun fid hm => hN fid (List.mem_append_left _ hm))
    obtain ⟨f2, b2, h2⟩ := gAnyBlockClosed_total env rank hR N bs
      targetTypes (fun fid hm => hN fid (List.mem_append_right _ hm))
    refine ⟨max f1 f2 + 1, ?_⟩
    have h1' := gIsClosed_mono env f1 (max f1 f2) (le_max_left _ _) bl
      targetTypes b1 h1
    have h2' := gAnyBlockClosed_mono env f2 (max f1 f2) (le_max_right _ _)
      bs targetTypes b2 h2
    simp only [gAnyBlockClosed]
    rw [h1']
    cases b1 with
    | true => exact ⟨true, rfl⟩
    | false => exact ⟨b2, h2'⟩
termination_by (N, sizeOf blocks, 0)

/-- On a ranked environment, some finite fuel settles
`gAddrRefsHandled` on any store-address referrer list whose callees all
rank below `N`. -/
theorem gAddrRefsHandled_total (env : GEnv) (rank : Nat → Nat)
    (hR : RankedEnv env rank) (N : Nat) (refs : List GAddrRef)
    (targetTypes : List TTEntry)
    (hN : ∀ fid ∈ gAddrRefsCallees refs, rank fid < N) :
    ∃ fuel b, gAddrRefsHandled env fuel refs targetTypes = some b := by
  cases refs with
  | nil => exact ⟨1, false, rfl⟩
  | cons aRef rest =>
    obtain ⟨f2, b2, h2⟩ := gAddrRefsHandled_total env rank hR N rest
      targetTypes (fun fid hm => by
        refine hN fid ?_
        cases aRef with
        | otherRef => simpa [gAddrRefsCallees] using hm
        | makeClosure ofid =>
          cases ofid with
          | none => simpa [gAddrRefsCallees] using hm
          | some fid2 =>
            simp [gAddrRefsCallees]
            exact Or.inr hm)
    cases aRef with
    | otherRef =>
      exact ⟨f2 + 1, b2, by simp only [gAddrRefsHandled]; exact h2⟩
    | makeClosure ofid =>
      cases ofid with
      | none =>
        exact ⟨f2 + 1, b2, by simp only [gAddrRefsHandled]; exact h2⟩
      | some fid =>
        have hfid : rank fid < N := hN fid (by simp [gAddrRefsCallees])
        obtain ⟨f1, b1, h1⟩ := gAnyBlockClosed_total env rank hR
          (rank fid) (env fid) targetTypes (fun fid' hm => hR fid fid' hm)
        refine ⟨max f1 f2 + 1, ?_⟩
        have h1' := gAnyBlockClosed_mono env f1 (max f1 f2)
          (le_max_left _ _) (env fid) targetTypes b1 h1
        have h2' := gAddrRefsHandled_mono env f2 (max f1 f2)
          (le_max_right _ _) rest targetTypes b2 h2
        simp only [gAddrRefsHandled]
        rw [h1']
        cases b1 with
        | true => exact ⟨true, rfl⟩
        | false => exact ⟨b2, h2'⟩
termination_by (N, sizeOf refs, 0)

/-- On a ranked environment, some finite fuel settles `gUnOpLoop` on
any referrer list whose callees all rank below `N`. -/
theorem gUnOpLoop_total (env : GEnv) (rank : Nat → Nat)
    (hR : RankedEnv env rank) (N : Nat) (ty : GoType)
    (referrers : List GInstr) (remaining targetTypes : List TTEntry)
    (hN : ∀ fid ∈ gInstrsCallees referrers, rank fid < N) :
    ∃ fuel b, gUnOpLoop env fuel ty referrers remaining targetTypes
      = some b := by
  cases remaining with
  | nil => exact ⟨1, false, rfl⟩
  | cons e rest =>
    obtain ⟨f2, b2, h2⟩ := gUnOpLoop_total env rank hR N ty referrers rest
      targetTypes hN
    cases e with
    | other => exact ⟨f2 + 1, b2, by simp only [gUnOpLoop]; exact h2⟩
    | pointer t =>
      obtain ⟨f1, b1, h1⟩ := gIsClosed_total env rank hR N referrers
        targetTypes hN
      refine ⟨max f1 f2 + 1, ?_⟩
      have h1' := gIsClosed_mono env f1 (max f1 f2) (le_max_left _ _)
        referrers targetTypes b1 h1
      have h2' := gUnOpLoop_mono env f2 (max f1 f2) (le_max_right _ _) ty
        referrers rest targetTypes b2 h2
      simp only [gUnOpLoop]
      split
      · rw [h1']
        cases b1 with
        | true => exact ⟨true, rfl⟩
        | false => exact ⟨b2, h2'⟩
      · exact ⟨b2, h2'⟩
    | named t =>
      obtain ⟨f1, b1, h1⟩ := gIsClosed_total env rank hR N referrers
        targetTypes hN
      refine ⟨max f1 f2 + 1, ?_⟩
      have h1' := gIsClosed_mono env f1 (max f1 f2) (le_max_left _ _)
        referrers targetTypes b1 h1
      have h2' := gUnOpLoop_mono env f2 (max f1 f2) (le_max_right _ _) ty
        referrers rest targetTypes b2 h2
      simp only [gUnOpLoop]
      split
      · rw [h1']
        cases b1 with
        | true => exact ⟨true, rfl⟩
        | false => exact ⟨b2, h2'⟩
      · exact ⟨b2, h2'⟩
termination_by (N, sizeOf referrers, sizeOf remaining)
end

/-- Every listed function index ranks strictly below `rankBound`. -/
theorem rankBound_lt (rank : Nat → Nat) (l : List Nat) :
    ∀ fid ∈ l, rank fid < rankBound rank l := by
  induction l with
  | nil => simp
  | cons x rest ih =>
    intro fid hm
    rcases List.mem_cons.mp hm with h | h
    · subst h
      simp only [rankBound]
      omega
    · have := ih fid h
      simp only [rankBound]
      omega

/-- C8: the mutual recursion between the classifier and the
reachability walk is not memoized and not cycle-guarded — on a cyclic
environment (a function whose body calls itself) the walk exhausts
every finite fuel without an answer, so recursive callee bodies cause
unbounded recursion; while on every environment whose
static-callee/closure-body chain is acyclic (witnessed by a rank
strictly decreasing along callee edges) some finite fuel, bounded only
by the input's own call/defer/closure nesting, settles the walk. -/
theorem walk_termination (targetTypes : List TTEntry) :
    (∀ fuel, gIsClosed cycEnv fuel [gCycCall] targetTypes = none) ∧
    (∀ (env : GEnv) (rank : Nat → Nat), RankedEnv env rank →
      ∀ refs : List GInstr, ∃ fuel b,
        gIsClosed env fuel refs targetTypes = some b) := by
  constructor
  · intro fuel
    exact (cyc_diverges targetTypes fuel).2.2
  · intro env rank hR refs
    exact gIsClosed_total env rank hR (rankBound rank (gInstrsCallees refs))
      refs targetTypes (rankBound_lt rank (gInstrsCallees refs))

/-- Witness for C8: on the concrete one-function cyclic environment the
walk yields no result at fuel 5, while on a concrete environment whose
bodies contain no callees at all the walk of a referrer list
settles. -/
theorem walk_termination_witness :
    gIsClosed cycEnv 5 [gCycCall] [] = none ∧
    (∃ fuel b, gIsClosed (fun _ => []) fuel [GInstr.other] [] = some b) := by
  constructor
  · exact (walk_termination []).1 5
  · exact (walk_termination []).2 (fun _ => []) (fun _ => 0)
      (fun fid fid' hm => absurd hm (by simp [gBlocksCallees]))
      [GInstr.other]

end SqlCloseCheck
